import Mathlib

/-!
Verification of the Tock alarm virtualization core: the `MuxAlarm` /
`VirtualMuxAlarm` multiplexer (capsules/src/virtual_alarm.rs) and the
userspace-facing `AlarmDriver` (capsules/src/alarm.rs), embedded shallowly.
Tick values are 32-bit machine words, modelled as natural numbers reduced
modulo 2^32; the boards in this repository are 32-bit targets, so `usize`
is modelled the same way.
-/

namespace Tock

/-- Modulus of the 32-bit tick counter. -/
def W : Nat := 4294967296

/-- Wrapping 32-bit addition (`u32::wrapping_add`). -/
def wrapping_add (a b : Nat) : Nat := (a + b) % W

/-- Wrapping 32-bit subtraction (`u32::wrapping_sub`). -/
def wrapping_sub (a b : Nat) : Nat := (a % W + (W - b % W)) % W

/-- Modelled from the spec: `Ticks::within_range` of the kernel time HIL
(kernel/src/hil/time.rs, which is not among the provided sources). Per the
spec, membership of `x` in the half-open wraparound interval `[s, e)` is
decided relative to the start point: `x - s < e - s` in wrapping
arithmetic (so reference=0xFFFFFFF0, dt=0x20 treats now=0x05 as inside). -/
def within_range (x s e : Nat) : Bool := wrapping_sub x s < wrapping_sub e s

/-- Return codes of the kernel `ReturnCode` type used by this core. -/
inductive ReturnCode where
  | SUCCESS
  | SuccessWithValue (value : Nat)
  | EALREADY
  | ENOSUPPORT
  | FAIL
  deriving DecidableEq, Repr

/-! ## Mux layer (capsules/src/virtual_alarm.rs) -/

/-- One `VirtualMuxAlarm` node of the mux list: reference tick, duration,
armed flag and the (abstract, by identifier) registered client. -/
structure VNode where
  reference : Nat
  dt : Nat
  armed : Bool
  client : Option Nat
  deriving DecidableEq, Repr

/-- State of a `MuxAlarm` together with the single underlying hardware
alarm it owns: the node list (head = most recently registered), the
enabled counter, the hardware compare state (armed flag plus the
reference/dt pair last written by `Alarm::set_alarm`), and the re-entrancy
flag `firing`. -/
structure MuxState where
  alarms : List VNode
  enabled : Nat
  hwArmed : Bool
  hwReference : Nat
  hwDt : Nat
  firing : Bool
  deriving DecidableEq, Repr

/-- Deadline `reference + dt` of a virtual alarm node (`get_alarm`). -/
def nodeDeadline (n : VNode) : Nat := wrapping_add n.reference n.dt

/-- Deadline the hardware alarm is armed for (`Alarm::get_alarm` of the
underlying alarm, which reports the deadline of the last `set_alarm`). -/
def hwDeadline (s : MuxState) : Nat := wrapping_add s.hwReference s.hwDt

/-- Initial state of `MuxAlarm::new`: empty list, zero enabled count, not
firing, hardware unarmed. -/
def mux_init : MuxState :=
  { alarms := [], enabled := 0, hwArmed := false, hwReference := 0,
    hwDt := 0, firing := false }

/-- The `VirtualMuxAlarm::set_alarm_client` operation: pushes the node at
the head of the mux list and resets its reference, dt and armed state to
the disabled zero state before storing the client. -/
def vm_set_alarm_client (s : MuxState) (c : Nat) : MuxState :=
  { s with alarms := { reference := 0, dt := 0, armed := false, client := some c } :: s.alarms }

/-- The `VirtualMuxAlarm::set_alarm` operation on node `i`. Reads the
enabled count first; marks the node armed (bumping the count if it was
not); writes the hardware if the count was zero, or — outside a firing
pass — if the currently armed hardware deadline is not within
`[reference, reference+dt)`; finally stores the new reference and dt. -/
def vm_set_alarm (s : MuxState) (i reference dt : Nat) : MuxState :=
  match s.alarms[i]? with
  | none => s
  | some node =>
    let enabled := s.enabled
    let enabled2 := if !node.armed then enabled + 1 else enabled
    let hwWrite : Bool :=
      if enabled = 0 then true
      else if s.firing = false then
        !(within_range (hwDeadline s) reference (wrapping_add reference dt))
      else false
    { s with
      alarms := s.alarms.set i { node with reference := reference, dt := dt, armed := true },
      enabled := enabled2,
      hwArmed := if hwWrite then true else s.hwArmed,
      hwReference := if hwWrite then reference else s.hwReference,
      hwDt := if hwWrite then dt else s.hwDt }

/-- The `VirtualMuxAlarm::disarm` operation on node `i`: success and no
change when not armed; otherwise clears armed, decrements the count, and
disarms the hardware exactly when the count reaches zero. -/
def vm_disarm (s : MuxState) (i : Nat) : MuxState × ReturnCode :=
  match s.alarms[i]? with
  | none => (s, ReturnCode.SUCCESS)
  | some node =>
    if !node.armed then (s, ReturnCode.SUCCESS)
    else
      let enabled := s.enabled - 1
      ({ s with
          alarms := s.alarms.set i { node with armed := false },
          enabled := enabled,
          hwArmed := if enabled = 0 then false else s.hwArmed },
        ReturnCode.SUCCESS)

/-- A node the firing pass fires: armed and with `now` outside its window
`[reference, reference+dt)`. -/
def expiredNode (now : Nat) (n : VNode) : Bool :=
  n.armed && !(within_range now n.reference (wrapping_add n.reference n.dt))

/-- Left-to-right minimum of `Iterator::min_by_key`, keeping the earlier
element on ties, keyed by `(reference+dt) - now` in wrapping arithmetic. -/
def minNodeGo (now : Nat) (best : VNode) : List VNode → VNode
  | [] => best
  | n :: rest =>
    minNodeGo now
      (if wrapping_sub (nodeDeadline n) now < wrapping_sub (nodeDeadline best) now then n else best)
      rest

/-- First minimum of a node list by remaining-time key, `none` on `[]`. -/
def minNode (now : Nat) (l : List VNode) : Option VNode :=
  match l with
  | [] => none
  | n :: rest => some (minNodeGo now n rest)

/-- The `MuxAlarm` firing handler (`impl AlarmClient for MuxAlarm`):
captures `now` as the hardware's armed deadline, clears the armed flag of
every expired node (decrementing the count once each) while collecting
them for client notification, then re-arms the hardware to the armed node
of minimum remaining time, or disarms it if none remains armed. Returns
the new state and the fired nodes in list order. -/
def mux_fire (s : MuxState) : MuxState × List VNode :=
  let now := hwDeadline s
  let fired := s.alarms.filter (expiredNode now)
  let alarms2 := s.alarms.map (fun n => if expiredNode now n then { n with armed := false } else n)
  let s2 : MuxState :=
    { s with
      alarms := alarms2,
      enabled := s.enabled - s.alarms.countP (expiredNode now),
      firing := false }
  match minNode now (alarms2.filter (fun n => n.armed)) with
  | some m => ({ s2 with hwArmed := true, hwReference := m.reference, hwDt := m.dt }, fired)
  | none => ({ s2 with hwArmed := false }, fired)

/-- Count of armed nodes in a mux list. -/
def countArmed (l : List VNode) : Nat := l.countP (fun n => n.armed)

/-- States of the mux reachable through its public operations. -/
inductive MuxReach : MuxState → Prop where
  | init : MuxReach mux_init
  | register (s : MuxState) (c : Nat) (h : MuxReach s) : MuxReach (vm_set_alarm_client s c)
  | set_alarm (s : MuxState) (i r dt : Nat) (h : MuxReach s) : MuxReach (vm_set_alarm s i r dt)
  | disarm (s : MuxState) (i : Nat) (h : MuxReach s) : MuxReach (vm_disarm s i).1
  | fire (s : MuxState) (h : MuxReach s) : MuxReach (mux_fire s).1

/-- Soonest-first property of a mux state relative to a time pivot `p`:
whenever the enabled count is positive, the hardware is armed and its
deadline is no later, in wraparound order relative to `p`, than the
deadline of every armed node. -/
def SoonestFirst (p : Nat) (s : MuxState) : Prop :=
  0 < s.enabled →
    s.hwArmed = true ∧
    ∀ n ∈ s.alarms, n.armed = true →
      wrapping_sub (hwDeadline s) p ≤ wrapping_sub (nodeDeadline n) p

/-! ## Driver layer (capsules/src/alarm.rs) -/

/-- The `Expiration` variant of a process alarm record. -/
inductive Expiration where
  | Disabled
  | Enabled (reference dt : Nat)
  deriving DecidableEq, Repr

/-- One per-process grant record (`AlarmData`): its expiration and the
(abstract, by identifier) subscribed callback. -/
structure AlarmData where
  expiration : Expiration
  callback : Option Nat
  deriving DecidableEq, Repr

/-- State of an `AlarmDriver` together with the one virtual alarm it
owns: the grant records (indexed by process), the armed-process counter,
the cached `next_alarm`, and the owned virtual alarm's compare state. -/
structure DriverState where
  records : List AlarmData
  num_armed : Nat
  next_alarm : Expiration
  va_armed : Bool
  va_reference : Nat
  va_dt : Nat
  deriving DecidableEq, Repr

/-- Initial state of `AlarmDriver::new`: no records, zero armed count,
`next_alarm` disabled, owned virtual alarm unarmed. -/
def driver_init : DriverState :=
  { records := [], num_armed := 0, next_alarm := Expiration.Disabled,
    va_armed := false, va_reference := 0, va_dt := 0 }

/-- One step of the incumbent-replacement fold of `reset_active_alarm`:
the accumulator holds `(earliest_alarm, earliest_end)`; an `Enabled`
candidate replaces the incumbent when its deadline falls within the
incumbent's `[reference, end)` window, or when `now` is not within the
candidate's own window. -/
def resetStep (now : Nat) (acc : Expiration × Nat) (td : AlarmData) : Expiration × Nat :=
  match td.expiration with
  | Expiration.Disabled => acc
  | Expiration.Enabled r dt =>
    let e := wrapping_add r dt
    match acc.1 with
    | Expiration.Disabled => (td.expiration, e)
    | Expiration.Enabled er _ =>
      if within_range e er acc.2 then (td.expiration, e)
      else if !(within_range now r e) then (td.expiration, e)
      else acc

/-- The `AlarmDriver::reset_active_alarm` recomputation: folds over all
records to pick the winning expiration, stores it in `next_alarm`, and
arms the owned virtual alarm to it (or disarms it when none is
`Enabled`). `now` is the clock value read at the top of the routine. -/
def reset_active_alarm (s : DriverState) (now : Nat) : DriverState :=
  let ea := (s.records.foldl (resetStep now) (Expiration.Disabled, 0)).1
  match ea with
  | Expiration.Disabled => { s with next_alarm := ea, va_armed := false }
  | Expiration.Enabled r dt =>
    { s with next_alarm := ea, va_armed := true, va_reference := r, va_dt := dt }

/-- The `AlarmDriver::subscribe` operation: replaces the calling
process's callback slot, failing only when the grant record is
unavailable. -/
def subscribe (s : DriverState) (i : Nat) (cb : Option Nat) : DriverState × ReturnCode :=
  match s.records[i]? with
  | none => (s, ReturnCode.FAIL)
  | some td =>
    ({ s with records := s.records.set i { td with callback := cb } }, ReturnCode.SUCCESS)

/-- The `AlarmDriver::command` dispatcher. `i` is the calling process,
`now` the clock value read inside the grant closure, and `rnow` the
clock value read by `reset_active_alarm` when it runs. The `rearm`
helper bumps `num_armed` exactly when the record was `Disabled`, stores
`Enabled(reference, dt)` (as 32-bit values) and reports
`reference.wrapping_add(dt)`; a true reset flag triggers
`reset_active_alarm` before returning. -/
def command (freq : Nat) (s : DriverState) (cmd data data2 i now rnow : Nat) :
    DriverState × ReturnCode :=
  match s.records[i]? with
  | none => (s, ReturnCode.FAIL)
  | some td =>
    let rearmF : Nat → Nat → DriverState × ReturnCode × Bool := fun reference dt =>
      let armedInc : Nat := match td.expiration with
        | Expiration.Disabled => 1
        | Expiration.Enabled _ _ => 0
      ({ s with
          records := s.records.set i
            { td with expiration := Expiration.Enabled (reference % W) (dt % W) },
          num_armed := s.num_armed + armedInc },
        ReturnCode.SuccessWithValue (wrapping_add reference dt), true)
    let res : DriverState × ReturnCode × Bool :=
      match cmd with
      | 0 => (s, ReturnCode.SuccessWithValue 1, false)
      | 1 => (s, ReturnCode.SuccessWithValue freq, false)
      | 2 => (s, ReturnCode.SuccessWithValue (now % W), false)
      | 3 =>
        match td.expiration with
        | Expiration.Disabled => (s, ReturnCode.EALREADY, false)
        | Expiration.Enabled _ _ =>
          ({ s with
              records := s.records.set i { td with expiration := Expiration.Disabled },
              num_armed := s.num_armed - 1 },
            ReturnCode.SUCCESS, true)
      | 4 => rearmF (now % W) (wrapping_sub data (now % W))
      | 5 => rearmF (now % W) data
      | 6 => rearmF data data2
      | _ => (s, ReturnCode.ENOSUPPORT, false)
    if res.2.2 then (reset_active_alarm res.1 rnow, res.2.1) else (res.1, res.2.1)

/-- An `Enabled` record the driver firing handler expires: `now` lies
outside its `[reference, reference+dt)` window. -/
def expiredRec (now : Nat) (td : AlarmData) : Bool :=
  match td.expiration with
  | Expiration.Enabled r dt => !(within_range now r (wrapping_add r dt))
  | Expiration.Disabled => false

/-- Whether a record is `Enabled`. -/
def isEnabled (td : AlarmData) : Bool :=
  match td.expiration with
  | Expiration.Enabled _ _ => true
  | Expiration.Disabled => false

/-- The `AlarmDriver` firing handler (one pass, without the conditional
tail re-invocation, which is reachable as a further `driver_fire` step):
disables every expired record (decrementing `num_armed` once each), then
disarms the owned virtual alarm if no process remains armed, else runs
`reset_active_alarm` and disarms if the recomputed `next_alarm` is
`Disabled`. `now` is the entry clock read, `rnow` the read inside
`reset_active_alarm`. -/
def driver_fire (s : DriverState) (now rnow : Nat) : DriverState :=
  let records2 := s.records.map
    (fun td => if expiredRec now td then { td with expiration := Expiration.Disabled } else td)
  let s1 : DriverState :=
    { s with records := records2, num_armed := s.num_armed - s.records.countP (expiredRec now) }
  if s1.num_armed = 0 then { s1 with va_armed := false }
  else
    let s2 := reset_active_alarm s1 rnow
    match s2.next_alarm with
    | Expiration.Enabled _ _ => s2
    | Expiration.Disabled => { s2 with va_armed := false }

/-- Count of `Enabled` records. -/
def countEnabled (l : List AlarmData) : Nat := l.countP isEnabled

/-- A fresh default grant record (`AlarmData::default`). -/
def defaultRecord : AlarmData :=
  { expiration := Expiration.Disabled, callback := none }

/-- States of the alarm driver reachable through its public operations
(lazy grant creation, subscribe, every command, and the firing
handler). -/
inductive DriverReach : DriverState → Prop where
  | init : DriverReach driver_init
  | grant (s : DriverState) (h : DriverReach s) :
      DriverReach { s with records := s.records ++ [defaultRecord] }
  | sub (s : DriverState) (i : Nat) (cb : Option Nat) (h : DriverReach s) :
      DriverReach (subscribe s i cb).1
  | cmd (freq : Nat) (s : DriverState) (c d d2 i now rnow : Nat) (h : DriverReach s) :
      DriverReach (command freq s c d d2 i now rnow).1
  | fire (s : DriverState) (now rnow : Nat) (h : DriverReach s) :
      DriverReach (driver_fire s now rnow)

/-! ## Concrete states used by witnesses and counterexamples -/

/-- Concrete one-node mux state with the node armed and the hardware
armed to the same (10, 20) deadline. -/
def sC6 : MuxState :=
  { alarms := [{ reference := 10, dt := 20, armed := true, client := some 0 }],
    enabled := 1, hwArmed := true, hwReference := 10, hwDt := 20, firing := false }

/-- Concrete zero-count mux state with one registered node. -/
def sC4 : MuxState := vm_set_alarm_client mux_init 0

/-- Concrete one-record driver state with the record enabled at
`(100, 50)` and the owned virtual alarm armed accordingly. -/
def dEn : DriverState :=
  { records := [{ expiration := Expiration.Enabled 100 50, callback := some 4 }],
    num_armed := 1, next_alarm := Expiration.Enabled 100 50,
    va_armed := true, va_reference := 100, va_dt := 50 }

/-- Concrete two-record driver state of the selection scenario:
`Enabled(1000, 500)` and `Enabled(1000, 1500)`. -/
def dScen : DriverState :=
  { records := [{ expiration := Expiration.Enabled 1000 500, callback := none },
                { expiration := Expiration.Enabled 1000 1500, callback := none }],
    num_armed := 2, next_alarm := Expiration.Disabled,
    va_armed := false, va_reference := 0, va_dt := 0 }

/-- Concrete mux trace for the soonest-first counterexample: register two
nodes, arm the first-registered (head) node with `(0, 100)` — the
hardware follows since the count was zero — then arm the other node with
`(150, 100)`, a reference in the future of the first window. -/
def sCex : MuxState :=
  vm_set_alarm
    (vm_set_alarm (vm_set_alarm_client (vm_set_alarm_client mux_init 0) 1) 0 0 100)
    1 150 100

/-- Concrete one-record driver state before the recomputation
counterexample. -/
def d9base : DriverState := { driver_init with records := [defaultRecord] }

/-- Driver state after arming the record with command 6 `(100, 50)`. -/
def d9a : DriverState := (command 16 d9base 6 100 50 0 0 0).1

/-- Driver state after re-setting the already-enabled record with
command 6 `(200, 60)`. -/
def d9b : DriverState := (command 16 d9a 6 200 60 0 0 0).1

/-- Concrete two-node mux state for the firing-pass witness: both nodes
armed — windows `[1000, 1500)` and `[1000, 2500)` — hardware armed at
`(1000, 500)`, so the captured `now` is 1500. -/
def sfC3 : MuxState :=
  { alarms := [{ reference := 1000, dt := 500, armed := true, client := some 1 },
               { reference := 1000, dt := 1500, armed := true, client := some 0 }],
    enabled := 2, hwArmed := true, hwReference := 1000, hwDt := 500, firing := false }

/-! ## List helper lemmas -/

theorem get?_set_self {α : Type} (l : List α) (i : Nat) (a b : α)
    (h : l[i]? = some b) : (l.set i a)[i]? = some a := by
  induction l generalizing i with
  | nil => simp at h
  | cons x xs ih =>
    cases i with
    | zero => simp
    | succ j => simpa using ih j (by simpa using h)

theorem get?_set_ne {α : Type} (l : List α) (i j : Nat) (a : α)
    (h : i ≠ j) : (l.set i a)[j]? = l[j]? := by
  induction l generalizing i j with
  | nil => simp
  | cons x xs ih =>
    cases i with
    | zero => cases j with
      | zero => exact absurd rfl h
      | succ k => simp
    | succ i2 => cases j with
      | zero => simp
      | succ k => simpa using ih i2 k (by omega)

theorem mem_of_get? {α : Type} (l : List α) (i : Nat) (a : α)
    (h : l[i]? = some a) : a ∈ l := by
  induction l generalizing i with
  | nil => simp at h
  | cons x xs ih =>
    cases i with
    | zero => simp at h; simp [h]
    | succ j => exact List.mem_cons_of_mem x (ih j (by simpa using h))

theorem mem_of_mem_set {α : Type} (l : List α) (i : Nat) (a b : α)
    (h : b ∈ l.set i a) : b = a ∨ b ∈ l := by
  induction l generalizing i with
  | nil => simp at h
  | cons x xs ih =>
    cases i with
    | zero =>
      rcases List.mem_cons.mp h with h1 | h1
      · exact Or.inl h1
      · exact Or.inr (List.mem_cons_of_mem x h1)
    | succ j =>
      rcases List.mem_cons.mp h with h1 | h1
      · exact Or.inr (by simp [h1])
      · rcases ih j h1 with h2 | h2
        · exact Or.inl h2
        · exact Or.inr (List.mem_cons_of_mem x h2)

theorem countP_set {α : Type} (p : α → Bool) (l : List α) (i : Nat) (a b : α)
    (h : l[i]? = some b) :
    (l.set i a).countP p + (if p b then 1 else 0) =
      l.countP p + (if p a then 1 else 0) := by
  induction l generalizing i with
  | nil => simp at h
  | cons x xs ih =>
    cases i with
    | zero =>
      simp only [List.getElem?_cons_zero, Option.some.injEq] at h
      cases h
      simp only [List.set, List.countP_cons]
      omega
    | succ j =>
      simp only [List.set, List.countP_cons]
      have := ih j (by simpa using h)
      omega

theorem countP_map_fire {α : Type} (p q : α → Bool) (f : α → α) (l : List α)
    (h1 : ∀ x, q x = true → p x = true)
    (h2 : ∀ x, q x = true → p (f x) = false) :
    (l.map (fun x => if q x then f x else x)).countP p + l.countP q = l.countP p := by
  induction l with
  | nil => simp
  | cons x xs ih =>
    simp only [List.map_cons, List.countP_cons]
    cases hq : q x with
    | true =>
      simp only [hq, if_true, h1 x hq, h2 x hq, Bool.false_eq_true, if_false]
      omega
    | false =>
      simp only [hq, Bool.false_eq_true, if_false]
      omega

/-! ## Wrapping arithmetic lemmas -/

theorem within_range_iff (x s e : Nat) :
    within_range x s e = true ↔ wrapping_sub x s < wrapping_sub e s := by
  simp [within_range]

theorem wrapping_sub_lt (x y : Nat) : wrapping_sub x y < W := by
  unfold wrapping_sub W
  omega

theorem wrapping_sub_char (x y : Nat) :
    wrapping_sub x y =
      if y % W ≤ x % W then x % W - y % W else x % W + W - y % W := by
  unfold wrapping_sub W
  split <;> omega

theorem wrapping_sub_transfer (x y r : Nat)
    (h : wrapping_sub y r ≤ wrapping_sub x r) :
    wrapping_sub x y = wrapping_sub x r - wrapping_sub y r := by
  rw [wrapping_sub_char x y, wrapping_sub_char x r, wrapping_sub_char y r] at *
  unfold W at *
  split_ifs at * <;> omega

/-! ## Minimum-selection lemmas -/

theorem minNodeGo_spec (now : Nat) (best : VNode) (l : List VNode) :
    (minNodeGo now best l = best ∨ minNodeGo now best l ∈ l) ∧
    wrapping_sub (nodeDeadline (minNodeGo now best l)) now ≤
      wrapping_sub (nodeDeadline best) now ∧
    ∀ n ∈ l, wrapping_sub (nodeDeadline (minNodeGo now best l)) now ≤
      wrapping_sub (nodeDeadline n) now := by
  induction l generalizing best with
  | nil => simp [minNodeGo]
  | cons x xs ih =>
    simp only [minNodeGo]
    by_cases hlt :
        wrapping_sub (nodeDeadline x) now < wrapping_sub (nodeDeadline best) now
    · simp only [hlt, if_true]
      obtain ⟨hmem, hle, hall⟩ := ih x
      refine ⟨?_, ?_, ?_⟩
      · rcases hmem with h | h
        · exact Or.inr (by simp [h])
        · exact Or.inr (List.mem_cons_of_mem x h)
      · omega
      · intro n hn
        rcases List.mem_cons.mp hn with h | h
        · rw [h]; exact hle
        · exact hall n h
    · simp only [hlt, if_false]
      obtain ⟨hmem, hle, hall⟩ := ih best
      refine ⟨?_, hle, ?_⟩
      · rcases hmem with h | h
        · exact Or.inl h
        · exact Or.inr (List.mem_cons_of_mem x h)
      intro n hn
      rcases List.mem_cons.mp hn with h | h
      · rw [h]; omega
      · exact hall n h

theorem minNode_spec (now : Nat) (l : List VNode) (m : VNode)
    (h : minNode now l = some m) :
    m ∈ l ∧ ∀ n ∈ l, wrapping_sub (nodeDeadline m) now ≤ wrapping_sub (nodeDeadline n) now := by
  cases l with
  | nil => simp [minNode] at h
  | cons x xs =>
    simp only [minNode, Option.some.injEq] at h
    obtain ⟨hmem, hle, hall⟩ := minNodeGo_spec now x xs
    rw [h] at hmem hle hall
    constructor
    · rcases hmem with h1 | h1
      · simp [h1]
      · exact List.mem_cons_of_mem x h1
    · intro n hn
      rcases List.mem_cons.mp hn with h1 | h1
      · rw [h1]; exact hle
      · exact hall n h1

theorem minNode_none_iff (now : Nat) (l : List VNode) :
    minNode now l = none ↔ l = [] := by
  cases l <;> simp [minNode]

/-! ## Counting invariants -/

theorem expiredNode_armed (now : Nat) (n : VNode) (h : expiredNode now n = true) :
    n.armed = true := by
  simp only [expiredNode, Bool.and_eq_true] at h
  exact h.1

theorem mux_count_invariant (s : MuxState) (h : MuxReach s) :
    s.enabled = countArmed s.alarms := by
  induction h with
  | init => simp [mux_init, countArmed]
  | register s c h ih =>
    simp [vm_set_alarm_client, countArmed, List.countP_cons, ih]
  | set_alarm s i r dt h ih =>
    cases hg : s.alarms[i]? with
    | none => simpa [vm_set_alarm, hg] using ih
    | some node =>
      have hc := countP_set (fun n => n.armed) s.alarms i
        { node with reference := r, dt := dt, armed := true } node hg
      simp only [vm_set_alarm, hg]
      unfold countArmed at *
      cases ha : node.armed <;> simp [ha] at hc ⊢ <;> omega
  | disarm s i h ih =>
    cases hg : s.alarms[i]? with
    | none => simpa [vm_disarm, hg] using ih
    | some node =>
      cases ha : node.armed with
      | false => simpa [vm_disarm, hg, ha] using ih
      | true =>
        have hc := countP_set (fun n => n.armed) s.alarms i
          { node with armed := false } node hg
        simp only [vm_disarm, hg, ha]
        unfold countArmed at *
        simp [ha] at hc
        simp
        omega
  | fire s h ih =>
    have hcf := countP_map_fire (fun n => n.armed) (expiredNode (hwDeadline s))
      (fun n => { n with armed := false }) s.alarms
      (fun x hx => expiredNode_armed _ x hx) (fun x _ => rfl)
    simp only [mux_fire]
    unfold countArmed at *
    dsimp only at hcf
    split <;> dsimp only <;> omega

theorem reset_frame (s : DriverState) (now : Nat) :
    (reset_active_alarm s now).records = s.records ∧
      (reset_active_alarm s now).num_armed = s.num_armed := by
  simp only [reset_active_alarm]
  split <;> simp

theorem expiredRec_enabled (now : Nat) (td : AlarmData) (h : expiredRec now td = true) :
    isEnabled td = true := by
  cases he : td.expiration with
  | Disabled => simp [expiredRec, he] at h
  | Enabled r dt => simp [isEnabled, he]

theorem countEnabled_rearm (l : List AlarmData) (i : Nat) (td : AlarmData) (r dt : Nat)
    (hg : l[i]? = some td) :
    countEnabled (l.set i { td with expiration := Expiration.Enabled r dt }) +
        (match td.expiration with
          | Expiration.Disabled => 0
          | Expiration.Enabled _ _ => 1) =
      countEnabled l + 1 := by
  have hc := countP_set isEnabled l i { td with expiration := Expiration.Enabled r dt } td hg
  have h1 : isEnabled { td with expiration := Expiration.Enabled r dt } = true := rfl
  rw [h1] at hc
  unfold countEnabled
  cases he : td.expiration with
  | Disabled =>
    have h2 : isEnabled td = false := by unfold isEnabled; rw [he]
    rw [h2] at hc
    simp at hc
    simp
    omega
  | Enabled a b =>
    have h2 : isEnabled td = true := by unfold isEnabled; rw [he]
    rw [h2] at hc
    simp at hc
    simp
    omega

theorem driver_count_invariant (d : DriverState) (h : DriverReach d) :
    d.num_armed = countEnabled d.records := by
  induction h with
  | init => simp [driver_init, countEnabled]
  | grant s h ih =>
    simp [countEnabled, List.countP_append, ih, defaultRecord, isEnabled]
  | sub s i cb h ih =>
    cases hg : s.records[i]? with
    | none => simpa [subscribe, hg] using ih
    | some td =>
      have hc := countP_set isEnabled s.records i { td with callback := cb } td hg
      have hsame : isEnabled { td with callback := cb } = isEnabled td := by
        unfold isEnabled; rfl
      rw [hsame] at hc
      simp only [subscribe, hg]
      unfold countEnabled at ih ⊢
      try dsimp only
      omega
  | cmd freq s c da db i now rnow h ih =>
    cases hg : s.records[i]? with
    | none => simpa [command, hg] using ih
    | some td =>
      rcases c with _ | _ | _ | _ | _ | _ | _ | c
      · simpa [command, hg] using ih
      · simpa [command, hg] using ih
      · simpa [command, hg] using ih
      · cases he : td.expiration with
        | Disabled => simpa [command, hg, he] using ih
        | Enabled r0 dt0 =>
          have hc := countP_set isEnabled s.records i
            { td with expiration := Expiration.Disabled } td hg
          have h1 : isEnabled { td with expiration := Expiration.Disabled } = false := rfl
          have h2 : isEnabled td = true := by unfold isEnabled; rw [he]
          rw [h1, h2] at hc
          simp only [if_true, Bool.false_eq_true, if_false] at hc
          simp only [command, hg, he, if_true]
          rw [(reset_frame _ rnow).1, (reset_frame _ rnow).2]
          unfold countEnabled at ih ⊢
          try dsimp only
          omega
      · simp only [command, hg, if_true]
        rw [(reset_frame _ rnow).1, (reset_frame _ rnow).2]
        dsimp only
        have hce := countEnabled_rearm s.records i td ((now % W) % W)
          ((wrapping_sub da (now % W)) % W) hg
        cases he : td.expiration <;> (rw [he] at hce; (try dsimp only at hce ⊢); omega)
      · simp only [command, hg, if_true]
        rw [(reset_frame _ rnow).1, (reset_frame _ rnow).2]
        dsimp only
        have hce := countEnabled_rearm s.records i td ((now % W) % W) (da % W) hg
        cases he : td.expiration <;> (rw [he] at hce; (try dsimp only at hce ⊢); omega)
      · simp only [command, hg, if_true]
        rw [(reset_frame _ rnow).1, (reset_frame _ rnow).2]
        dsimp only
        have hce := countEnabled_rearm s.records i td (da % W) (db % W) hg
        cases he : td.expiration <;> (rw [he] at hce; (try dsimp only at hce ⊢); omega)
      · simpa [command, hg] using ih
  | fire s now rnow h ih =>
    have hcf := countP_map_fire isEnabled (expiredRec now)
      (fun td => { td with expiration := Expiration.Disabled }) s.records
      (fun x hx => expiredRec_enabled now x hx) (fun x _ => rfl)
    unfold countEnabled at ih ⊢
    dsimp only at hcf
    simp only [driver_fire]
    split
    · try dsimp only
      omega
    · split <;> (try dsimp only) <;>
        rw [(reset_frame _ rnow).1, (reset_frame _ rnow).2] <;> (try dsimp only) <;> omega

/-! ## Firing-pass and window helper lemmas -/

theorem within_range_false_iff (x s e : Nat) :
    within_range x s e = false ↔ wrapping_sub e s ≤ wrapping_sub x s := by
  simp [within_range, Nat.not_lt]

theorem mux_fire_some_eq (s : MuxState) (m0 : VNode)
    (hmin : minNode (hwDeadline s)
      ((s.alarms.map
        (fun n => if expiredNode (hwDeadline s) n then { n with armed := false } else n)).filter
        (fun n => n.armed)) = some m0) :
    mux_fire s =
      ({ s with
          alarms := s.alarms.map
            (fun n => if expiredNode (hwDeadline s) n then { n with armed := false } else n),
          enabled := s.enabled - s.alarms.countP (expiredNode (hwDeadline s)),
          firing := false,
          hwArmed := true, hwReference := m0.reference, hwDt := m0.dt },
        s.alarms.filter (expiredNode (hwDeadline s))) := by
  simp only [mux_fire]
  rw [hmin]

theorem mux_fire_none_eq (s : MuxState)
    (hmin : minNode (hwDeadline s)
      ((s.alarms.map
        (fun n => if expiredNode (hwDeadline s) n then { n with armed := false } else n)).filter
        (fun n => n.armed)) = none) :
    mux_fire s =
      ({ s with
          alarms := s.alarms.map
            (fun n => if expiredNode (hwDeadline s) n then { n with armed := false } else n),
          enabled := s.enabled - s.alarms.countP (expiredNode (hwDeadline s)),
          firing := false,
          hwArmed := false },
        s.alarms.filter (expiredNode (hwDeadline s))) := by
  simp only [mux_fire]
  rw [hmin]

/-! ## Claim theorems -/

/-- C2: in every reachable state, the mux's `enabled` counter equals the
number of virtual alarm nodes with `armed == true`, and the driver's
`num_armed` counter equals the number of process records whose expiration
is `Enabled`; both equalities are preserved by every public operation,
which is exactly what the induction over the reachability relations
establishes. -/
theorem c2_counting_invariant (s : MuxState) (d : DriverState)
    (hs : MuxReach s) (hd : DriverReach d) :
    s.enabled = countArmed s.alarms ∧ d.num_armed = countEnabled d.records :=
  ⟨mux_count_invariant s hs, driver_count_invariant d hd⟩

/-- C2 witness: the invariant evaluated on a concrete reachable pair of
states (a mux with one registered, armed node and a driver with one
record armed by command 5). -/
theorem c2_counting_invariant_witness :
    (vm_set_alarm (vm_set_alarm_client mux_init 3) 0 5 7).enabled =
        countArmed (vm_set_alarm (vm_set_alarm_client mux_init 3) 0 5 7).alarms ∧
      (command 16 { driver_init with records := [defaultRecord] } 5 9 0 0 2 2).1.num_armed =
        countEnabled
          (command 16 { driver_init with records := [defaultRecord] } 5 9 0 0 2 2).1.records :=
  c2_counting_invariant _ _
    (MuxReach.set_alarm _ 0 5 7 (MuxReach.register _ 3 MuxReach.init))
    (DriverReach.cmd 16 _ 5 9 0 0 2 2 (DriverReach.grant _ DriverReach.init))

/-- C6: disarming a node whose armed flag is false returns success and
changes nothing at all; hence a second disarm in a row is always a no-op
returning success. Disarming an armed node clears its armed flag (leaving
its other fields and every other node untouched), decrements the mux
enabled count, and disarms the hardware exactly when the count reaches
zero, leaving the hardware compare fields themselves unchanged. -/
theorem c6_disarm_idempotent (s : MuxState) (i : Nat) (node : VNode)
    (hg : s.alarms[i]? = some node) :
    (node.armed = false → vm_disarm s i = (s, ReturnCode.SUCCESS)) ∧
    vm_disarm (vm_disarm s i).1 i = ((vm_disarm s i).1, ReturnCode.SUCCESS) ∧
    (node.armed = true →
      (vm_disarm s i).2 = ReturnCode.SUCCESS ∧
      (vm_disarm s i).1.alarms[i]? = some { node with armed := false } ∧
      (vm_disarm s i).1.enabled = s.enabled - 1 ∧
      (vm_disarm s i).1.hwArmed = (if s.enabled - 1 = 0 then false else s.hwArmed) ∧
      (vm_disarm s i).1.hwReference = s.hwReference ∧
      (vm_disarm s i).1.hwDt = s.hwDt ∧
      (vm_disarm s i).1.firing = s.firing ∧
      ∀ j, j ≠ i → (vm_disarm s i).1.alarms[j]? = s.alarms[j]?) := by
  cases ha : node.armed with
  | false =>
    have h1 : vm_disarm s i = (s, ReturnCode.SUCCESS) := by
      simp [vm_disarm, hg, ha]
    refine ⟨fun _ => h1, ?_, fun hcontra => absurd hcontra (by simp)⟩
    rw [h1]
    exact h1
  | true =>
    have hset := get?_set_self s.alarms i { node with armed := false } node hg
    have hst : vm_disarm s i =
        ({ s with
            alarms := s.alarms.set i { node with armed := false },
            enabled := s.enabled - 1,
            hwArmed := if s.enabled - 1 = 0 then false else s.hwArmed },
          ReturnCode.SUCCESS) := by
      simp [vm_disarm, hg, ha]
    refine ⟨fun hcontra => absurd hcontra (by simp), ?_, fun _ => ?_⟩
    · rw [hst]
      simp [vm_disarm, hset]
    · rw [hst]
      refine ⟨rfl, by simpa using hset, rfl, rfl, rfl, rfl, rfl, fun j hj => ?_⟩
      exact get?_set_ne s.alarms i j { node with armed := false } (fun he => hj he.symm)

/-- C4: for `set_alarm(reference, dt)` on an existing node, the hardware
is written with `(reference, dt)` when the previously read enabled count
was zero; otherwise, outside a firing pass, it is rewritten exactly when
the currently armed hardware deadline is not within
`[reference, reference+dt)` and left untouched otherwise; inside a firing
pass it is never written; in all cases the node stores the new reference
and dt (and is armed). -/
theorem c4_set_alarm_forwarding (s : MuxState) (i r dt : Nat) (node : VNode)
    (hg : s.alarms[i]? = some node) :
    (s.enabled = 0 →
      (vm_set_alarm s i r dt).hwArmed = true ∧
      (vm_set_alarm s i r dt).hwReference = r ∧
      (vm_set_alarm s i r dt).hwDt = dt) ∧
    (s.enabled ≠ 0 → s.firing = false →
      (within_range (hwDeadline s) r (wrapping_add r dt) = false →
        (vm_set_alarm s i r dt).hwArmed = true ∧
        (vm_set_alarm s i r dt).hwReference = r ∧
        (vm_set_alarm s i r dt).hwDt = dt) ∧
      (within_range (hwDeadline s) r (wrapping_add r dt) = true →
        (vm_set_alarm s i r dt).hwArmed = s.hwArmed ∧
        (vm_set_alarm s i r dt).hwReference = s.hwReference ∧
        (vm_set_alarm s i r dt).hwDt = s.hwDt)) ∧
    (s.enabled ≠ 0 → s.firing = true →
      (vm_set_alarm s i r dt).hwArmed = s.hwArmed ∧
      (vm_set_alarm s i r dt).hwReference = s.hwReference ∧
      (vm_set_alarm s i r dt).hwDt = s.hwDt) ∧
    (vm_set_alarm s i r dt).alarms[i]? =
      some { node with reference := r, dt := dt, armed := true } := by
  have hset := get?_set_self s.alarms i
    { node with reference := r, dt := dt, armed := true } node hg
  refine ⟨fun h0 => ?_, fun h0 hf => ⟨fun hw => ?_, fun hw => ?_⟩, fun h0 hf => ?_, ?_⟩
  · simp [vm_set_alarm, hg, h0]
  · simp [vm_set_alarm, hg, h0, hf, hw]
  · simp [vm_set_alarm, hg, h0, hf, hw]
  · simp [vm_set_alarm, hg, h0, hf]
  · simp only [vm_set_alarm, hg]
    simpa using hset

/-- C6 witness: on the concrete armed one-node state, the second of two
consecutive disarms succeeds with no state change. -/
theorem c6_disarm_idempotent_witness :
    vm_disarm (vm_disarm sC6 0).1 0 = ((vm_disarm sC6 0).1, ReturnCode.SUCCESS) :=
  (c6_disarm_idempotent sC6 0
    { reference := 10, dt := 20, armed := true, client := some 0 } rfl).2.1

/-- C4 witness: on a mux whose enabled count is zero, `set_alarm(5, 7)`
writes the hardware with reference 5 and dt 7. -/
theorem c4_set_alarm_forwarding_witness :
    (vm_set_alarm sC4 0 5 7).hwArmed = true ∧
      (vm_set_alarm sC4 0 5 7).hwReference = 5 ∧ (vm_set_alarm sC4 0 5 7).hwDt = 7 :=
  (c4_set_alarm_forwarding sC4 0 5 7
    { reference := 0, dt := 0, armed := false, client := some 0 } rfl).1 rfl

/-- C10: `AlarmDriver::subscribe` replaces only the calling process's
callback slot — it succeeds and leaves the record's expiration (the
updated record differs from the old only in `callback`), `num_armed`,
`next_alarm`, the owned virtual alarm's arming, and every other record
unchanged; by contrast, registering a client at the virtual alarm layer
resets the node's reference, dt and armed flag to the disabled zero
state. -/
theorem c10_subscribe_frame (s : DriverState) (i : Nat) (cb : Option Nat)
    (td : AlarmData) (hg : s.records[i]? = some td) :
    (subscribe s i cb).2 = ReturnCode.SUCCESS ∧
    (subscribe s i cb).1.records[i]? = some { td with callback := cb } ∧
    (subscribe s i cb).1.num_armed = s.num_armed ∧
    (subscribe s i cb).1.next_alarm = s.next_alarm ∧
    (subscribe s i cb).1.va_armed = s.va_armed ∧
    (subscribe s i cb).1.va_reference = s.va_reference ∧
    (subscribe s i cb).1.va_dt = s.va_dt ∧
    (∀ j, j ≠ i → (subscribe s i cb).1.records[j]? = s.records[j]?) ∧
    ∀ (ms : MuxState) (c : Nat),
      (vm_set_alarm_client ms c).alarms[0]? =
        some { reference := 0, dt := 0, armed := false, client := some c } := by
  have hset := get?_set_self s.records i { td with callback := cb } td hg
  refine ⟨?_, ?_, ?_, ?_, ?_, ?_, ?_, fun j hj => ?_, fun ms c => ?_⟩
  · simp [subscribe, hg]
  · simp only [subscribe, hg]
    simpa using hset
  · simp [subscribe, hg]
  · simp [subscribe, hg]
  · simp [subscribe, hg]
  · simp [subscribe, hg]
  · simp [subscribe, hg]
  · simp only [subscribe, hg]
    simpa using get?_set_ne s.records i j { td with callback := cb } (fun he => hj he.symm)
  · simp [vm_set_alarm_client]

/-- C10 witness: on the concrete one-record state, subscribing callback 9
keeps the record's expiration and the armed counter. -/
theorem c10_subscribe_frame_witness :
    (subscribe dEn 0 (some 9)).1.records[0]? =
      some { expiration := Expiration.Enabled 100 50, callback := some 9 } :=
  (c10_subscribe_frame dEn 0 (some 9)
    { expiration := Expiration.Enabled 100 50, callback := some 4 } rfl).2.1

/-- C7: stopping (command 3) an already-`Disabled` record returns
`EALREADY` with the whole driver state unchanged; any command number of 7
or more returns `ENOSUPPORT` with the whole state unchanged; stopping an
`Enabled` record returns `SUCCESS`, disables the record and decrements
`num_armed` by one. -/
theorem c7_command_errors (freq : Nat) (s : DriverState) (cmd data data2 i now rnow : Nat)
    (td : AlarmData) (hg : s.records[i]? = some td) :
    (td.expiration = Expiration.Disabled →
      command freq s 3 data data2 i now rnow = (s, ReturnCode.EALREADY)) ∧
    (7 ≤ cmd → command freq s cmd data data2 i now rnow = (s, ReturnCode.ENOSUPPORT)) ∧
    ∀ r0 d0, td.expiration = Expiration.Enabled r0 d0 →
      (command freq s 3 data data2 i now rnow).2 = ReturnCode.SUCCESS ∧
      (command freq s 3 data data2 i now rnow).1.records[i]? =
        some { td with expiration := Expiration.Disabled } ∧
      (command freq s 3 data data2 i now rnow).1.num_armed = s.num_armed - 1 := by
  refine ⟨fun he => ?_, fun hc => ?_, fun r0 d0 he => ?_⟩
  · simp [command, hg, he]
  · rcases cmd with _ | _ | _ | _ | _ | _ | _ | c
    all_goals first
      | omega
      | simp [command, hg]
  · have hset := get?_set_self s.records i
      { td with expiration := Expiration.Disabled } td hg
    refine ⟨?_, ?_, ?_⟩
    · simp [command, hg, he]
    · simp only [command, hg, he, if_true]
      rw [(reset_frame _ rnow).1]
      simpa using hset
    · simp only [command, hg, he, if_true]
      rw [(reset_frame _ rnow).2]

/-- C7 witness: on the concrete enabled-record state, command 3 stops the
alarm with success and zeroes the armed counter. -/
theorem c7_command_errors_witness :
    (command 16 dEn 3 0 0 0 2 2).2 = ReturnCode.SUCCESS ∧
      (command 16 dEn 3 0 0 0 2 2).1.records[0]? =
        some { expiration := Expiration.Disabled, callback := some 4 } ∧
      (command 16 dEn 3 0 0 0 2 2).1.num_armed = dEn.num_armed - 1 :=
  (c7_command_errors 16 dEn 3 0 0 0 2 2
    { expiration := Expiration.Enabled 100 50, callback := some 4 } rfl).2.2 100 50 rfl

/-- C8: the three set commands store `Enabled(reference, dt)` in the
calling process's record — command 4 with reference = now and
dt = target - now in wrapping arithmetic, command 5 with reference = now
and the given delta, command 6 with the two caller-supplied arguments —
return success with value `reference + dt` (wrapping), and increment
`num_armed` exactly when the record was previously `Disabled`. -/
theorem c8_set_commands (freq : Nat) (s : DriverState) (data data2 i now rnow : Nat)
    (td : AlarmData) (hg : s.records[i]? = some td) :
    ((command freq s 4 data data2 i now rnow).2 =
        ReturnCode.SuccessWithValue (wrapping_add (now % W) (wrapping_sub data (now % W))) ∧
      (command freq s 4 data data2 i now rnow).1.records[i]? =
        some { td with expiration :=
          Expiration.Enabled (now % W) (wrapping_sub data (now % W)) } ∧
      (command freq s 4 data data2 i now rnow).1.num_armed =
        s.num_armed + (if td.expiration = Expiration.Disabled then 1 else 0)) ∧
    ((command freq s 5 data data2 i now rnow).2 =
        ReturnCode.SuccessWithValue (wrapping_add (now % W) data) ∧
      (command freq s 5 data data2 i now rnow).1.records[i]? =
        some { td with expiration := Expiration.Enabled (now % W) (data % W) } ∧
      (command freq s 5 data data2 i now rnow).1.num_armed =
        s.num_armed + (if td.expiration = Expiration.Disabled then 1 else 0)) ∧
    ((command freq s 6 data data2 i now rnow).2 =
        ReturnCode.SuccessWithValue (wrapping_add data data2) ∧
      (command freq s 6 data data2 i now rnow).1.records[i]? =
        some { td with expiration := Expiration.Enabled (data % W) (data2 % W) } ∧
      (command freq s 6 data data2 i now rnow).1.num_armed =
        s.num_armed + (if td.expiration = Expiration.Disabled then 1 else 0)) := by
  have hmm : now % W % W = now % W := Nat.mod_mod_of_dvd now dvd_rfl
  have hws : wrapping_sub data (now % W) % W = wrapping_sub data (now % W) :=
    Nat.mod_eq_of_lt (wrapping_sub_lt data (now % W))
  have harm : (match td.expiration with
      | Expiration.Disabled => 1
      | Expiration.Enabled _ _ => 0) =
      (if td.expiration = Expiration.Disabled then 1 else 0) := by
    cases td.expiration <;> simp
  refine ⟨⟨?_, ?_, ?_⟩, ⟨?_, ?_, ?_⟩, ⟨?_, ?_, ?_⟩⟩ <;>
      simp only [command, hg, if_true] <;>
      first
      | rfl
      | (rw [(reset_frame _ rnow).1]
         dsimp only
         rw [hmm, hws]
         exact get?_set_self s.records i _ td hg)
      | (rw [(reset_frame _ rnow).1]
         dsimp only
         rw [hmm]
         exact get?_set_self s.records i _ td hg)
      | (rw [(reset_frame _ rnow).1]
         dsimp only
         exact get?_set_self s.records i _ td hg)
      | (rw [(reset_frame _ rnow).2]
         dsimp only
         rw [harm])

/-- C8 witness: command 6 with reference 100 and delta 50 on a disabled
record returns success value 150 and stores `Enabled(100, 50)`, bumping
the armed count. -/
theorem c8_set_commands_witness :
    (command 16 { driver_init with records := [defaultRecord] } 6 100 50 0 2 2).2 =
        ReturnCode.SuccessWithValue (wrapping_add 100 50) ∧
      (command 16 { driver_init with records := [defaultRecord] } 6 100 50 0 2 2).1.records[0]? =
        some { defaultRecord with expiration := Expiration.Enabled (100 % W) (50 % W) } ∧
      (command 16 { driver_init with records := [defaultRecord] } 6 100 50 0 2 2).1.num_armed =
        ({ driver_init with records := [defaultRecord] } : DriverState).num_armed +
          (if defaultRecord.expiration = Expiration.Disabled then 1 else 0) :=
  (c8_set_commands 16 { driver_init with records := [defaultRecord] } 100 50 0 2 2
    defaultRecord rfl).2.2

/-- Helper: the incumbent fold of `reset_active_alarm` ignores records
whose expiration is `Disabled`. -/
theorem foldl_reset_disabled (now : Nat) (l : List AlarmData) (acc : Expiration × Nat)
    (h : ∀ td ∈ l, td.expiration = Expiration.Disabled) :
    l.foldl (resetStep now) acc = acc := by
  induction l generalizing acc with
  | nil => rfl
  | cons x xs ih =>
    have hx := h x (by simp)
    have hrest : ∀ td ∈ xs, td.expiration = Expiration.Disabled :=
      fun td htd => h td (by simp [htd])
    simp only [List.foldl, resetStep, hx]
    exact ih acc hrest

/-- Helper: when the incumbent fold yields an `Enabled` winner,
`reset_active_alarm` stores it in `next_alarm` and arms the owned virtual
alarm to it. -/
theorem reset_next_of_fold (s : DriverState) (now r2 d2 : Nat)
    (hd : (s.records.foldl (resetStep now) (Expiration.Disabled, 0)).1 =
      Expiration.Enabled r2 d2) :
    (reset_active_alarm s now).next_alarm = Expiration.Enabled r2 d2 ∧
      (reset_active_alarm s now).va_armed = true ∧
      (reset_active_alarm s now).va_reference = r2 ∧
      (reset_active_alarm s now).va_dt = d2 := by
  refine ⟨?_, ?_, ?_, ?_⟩ <;> simp [reset_active_alarm, hd]

/-- C5: in `reset_active_alarm`, an `Enabled(r, dt)` candidate replaces an
`Enabled` incumbent exactly when its deadline `r+dt` falls within the
incumbent's `[reference, end)` window or `now` does not lie within the
candidate's own window; the owned virtual alarm ends up armed to the
winning expiration, and disarmed when no record is `Enabled`; in
particular, on the two-record state `dScen` — `Enabled(1000, 500)` and
`Enabled(1000, 1500)` — with `now` within `[1000, 1500)` (before either
deadline), the `(1000, 500)` record wins and the virtual alarm is armed
to it. -/
theorem c5_reset_selection (now er edt r dt : Nat) (cb : Option Nat) (s : DriverState) :
    (resetStep now (Expiration.Enabled er edt, wrapping_add er edt)
        { expiration := Expiration.Enabled r dt, callback := cb } =
      if within_range (wrapping_add r dt) er (wrapping_add er edt) = true
          ∨ within_range now r (wrapping_add r dt) = false
        then (Expiration.Enabled r dt, wrapping_add r dt)
        else (Expiration.Enabled er edt, wrapping_add er edt)) ∧
    ((s.records.foldl (resetStep now) (Expiration.Disabled, 0)).1 = Expiration.Disabled →
      (reset_active_alarm s now).next_alarm = Expiration.Disabled ∧
      (reset_active_alarm s now).va_armed = false) ∧
    (∀ r2 d2,
      (s.records.foldl (resetStep now) (Expiration.Disabled, 0)).1 = Expiration.Enabled r2 d2 →
      (reset_active_alarm s now).next_alarm = Expiration.Enabled r2 d2 ∧
      (reset_active_alarm s now).va_armed = true ∧
      (reset_active_alarm s now).va_reference = r2 ∧
      (reset_active_alarm s now).va_dt = d2) ∧
    ((∀ td ∈ s.records, td.expiration = Expiration.Disabled) →
      (reset_active_alarm s now).va_armed = false) ∧
    ∀ n2, within_range n2 1000 1500 = true →
      (reset_active_alarm dScen n2).next_alarm = Expiration.Enabled 1000 500 ∧
        (reset_active_alarm dScen n2).va_armed = true ∧
        (reset_active_alarm dScen n2).va_reference = 1000 ∧
        (reset_active_alarm dScen n2).va_dt = 500 := by
  refine ⟨?_, fun hd => ?_, fun r2 d2 hd => reset_next_of_fold s now r2 d2 hd,
    fun hall => ?_, fun n2 h => ?_⟩
  · by_cases hA : within_range (wrapping_add r dt) er (wrapping_add er edt) = true
    · simp [resetStep, hA]
    · by_cases hB : within_range now r (wrapping_add r dt) = false
      · simp [resetStep, hA, hB]
      · have hA2 : within_range (wrapping_add r dt) er (wrapping_add er edt) = false := by
          revert hA; cases within_range (wrapping_add r dt) er (wrapping_add er edt) <;> simp
        have hB2 : within_range now r (wrapping_add r dt) = true := by
          revert hB; cases within_range now r (wrapping_add r dt) <;> simp
        simp [resetStep, hA2, hB2]
  · constructor <;> simp [reset_active_alarm, hd]
  · have hstay := foldl_reset_disabled now s.records (Expiration.Disabled, 0) hall
    simp [reset_active_alarm, hstay]
  · have step1 : resetStep n2 (Expiration.Disabled, 0)
        { expiration := Expiration.Enabled 1000 500, callback := none } =
        (Expiration.Enabled 1000 500, 1500) := by
      simp [resetStep, show wrapping_add 1000 500 = 1500 from by decide]
    have hc1 : within_range (wrapping_add 1000 1500) 1000 1500 = false := by decide
    have hc2 : within_range n2 1000 (wrapping_add 1000 1500) = true := by
      rw [within_range_iff] at h ⊢
      have e1 : wrapping_sub 1500 1000 = 500 := by decide
      have e2 : wrapping_sub (wrapping_add 1000 1500) 1000 = 1500 := by decide
      rw [e1] at h
      rw [e2]
      omega
    have step2 : resetStep n2 (Expiration.Enabled 1000 500, 1500)
        { expiration := Expiration.Enabled 1000 1500, callback := none } =
        (Expiration.Enabled 1000 500, 1500) := by
      simp [resetStep, hc1, hc2]
    have hd : (dScen.records.foldl (resetStep n2) (Expiration.Disabled, 0)).1 =
        Expiration.Enabled 1000 500 := by
      rw [show dScen.records =
        [{ expiration := Expiration.Enabled 1000 500, callback := none },
         { expiration := Expiration.Enabled 1000 1500, callback := none }] from rfl,
        List.foldl_cons, step1, List.foldl_cons, step2, List.foldl_nil]
    exact reset_next_of_fold dScen n2 1000 500 hd

/-- C5 witness: the two-record scenario evaluated at the concrete clock
value 1200, whose window membership is decided concretely. -/
theorem c5_reset_selection_witness :
    (reset_active_alarm dScen 1200).next_alarm = Expiration.Enabled 1000 500 ∧
      (reset_active_alarm dScen 1200).va_armed = true ∧
      (reset_active_alarm dScen 1200).va_reference = 1000 ∧
      (reset_active_alarm dScen 1200).va_dt = 500 :=
  (c5_reset_selection 1200 0 0 0 0 none driver_init).2.2.2.2 1200 (by decide)

/-- C3: when the hardware fires, the mux takes `now` to be the hardware's
armed deadline `hwDeadline s`; the fired list is exactly the armed nodes
whose window `[reference, reference+dt)` does not contain that `now`;
each fired node's armed flag is cleared (all other node fields and the
unfired nodes are untouched) and the enabled count drops by one per fired
node; afterwards the hardware is re-armed to an armed node minimizing
`(reference+dt) - now` in wrapping arithmetic, or disarmed when no node
remains armed. -/
theorem c3_mux_fire (s : MuxState) :
    (mux_fire s).2 = s.alarms.filter (expiredNode (hwDeadline s)) ∧
    (∀ n, expiredNode (hwDeadline s) n = true ↔
      n.armed = true ∧
        within_range (hwDeadline s) n.reference (wrapping_add n.reference n.dt) = false) ∧
    (∀ (i : Nat) (n : VNode), s.alarms[i]? = some n →
      (mux_fire s).1.alarms[i]? =
        some (if expiredNode (hwDeadline s) n then { n with armed := false } else n)) ∧
    (mux_fire s).1.enabled = s.enabled - s.alarms.countP (expiredNode (hwDeadline s)) ∧
    ((mux_fire s).1.alarms.filter (fun n => n.armed) = [] →
      (mux_fire s).1.hwArmed = false) ∧
    (∀ m, minNode (hwDeadline s) ((mux_fire s).1.alarms.filter (fun n => n.armed)) = some m →
      (mux_fire s).1.hwArmed = true ∧
      (mux_fire s).1.hwReference = m.reference ∧
      (mux_fire s).1.hwDt = m.dt ∧
      m.armed = true ∧
      ∀ n ∈ (mux_fire s).1.alarms, n.armed = true →
        wrapping_sub (nodeDeadline m) (hwDeadline s) ≤
          wrapping_sub (nodeDeadline n) (hwDeadline s)) ∧
    ((mux_fire s).1.alarms.filter (fun n => n.armed) ≠ [] →
      ∃ m, minNode (hwDeadline s) ((mux_fire s).1.alarms.filter (fun n => n.armed)) = some m) := by
  have hiff : ∀ n : VNode, expiredNode (hwDeadline s) n = true ↔
      n.armed = true ∧
        within_range (hwDeadline s) n.reference (wrapping_add n.reference n.dt) = false := by
    intro n
    cases ha : n.armed <;>
      cases hw : within_range (hwDeadline s) n.reference (wrapping_add n.reference n.dt) <;>
        simp [expiredNode, ha, hw]
  cases hmin : minNode (hwDeadline s)
      ((s.alarms.map
        (fun n => if expiredNode (hwDeadline s) n then { n with armed := false } else n)).filter
        (fun n => n.armed)) with
  | some m0 =>
    have hfire := mux_fire_some_eq s m0 hmin
    refine ⟨by rw [hfire], hiff, fun i n hg => ?_, by rw [hfire], fun hemp => ?_,
      fun m hm => ?_, fun hne => ?_⟩
    · rw [hfire]
      simp only [List.getElem?_map, hg]
      rfl
    · rw [hfire] at hemp
      dsimp only at hemp
      rw [hemp] at hmin
      simp [minNode] at hmin
    · rw [hfire] at hm ⊢
      dsimp only at hm ⊢
      rw [hmin] at hm
      cases hm
      obtain ⟨hmem, hall⟩ := minNode_spec _ _ _ hmin
      have hmem2 := List.mem_filter.mp hmem
      refine ⟨rfl, rfl, rfl, by simpa using hmem2.2, fun n hn harm => ?_⟩
      exact hall n (List.mem_filter.mpr ⟨hn, by simpa using harm⟩)
    · rw [hfire]
      dsimp only
      exact ⟨m0, hmin⟩
  | none =>
    have hfire := mux_fire_none_eq s hmin
    refine ⟨by rw [hfire], hiff, fun i n hg => ?_, by rw [hfire], fun _ => by rw [hfire],
      fun m hm => ?_, fun hne => ?_⟩
    · rw [hfire]
      simp only [List.getElem?_map, hg]
      rfl
    · rw [hfire] at hm
      dsimp only at hm
      rw [hmin] at hm
      exact Option.noConfusion hm
    · rw [hfire] at hne
      dsimp only at hne
      exact absurd ((minNode_none_iff _ _).mp hmin) hne

/-- C3 witness: on the concrete two-node state `sfC3` the pass fires
exactly the `(1000, 500)` node and re-arms the hardware to the remaining
`(1000, 1500)` node. -/
theorem c3_mux_fire_witness :
    (mux_fire sfC3).2 = sfC3.alarms.filter (expiredNode (hwDeadline sfC3)) ∧
      (mux_fire sfC3).1.hwArmed = true ∧
      (mux_fire sfC3).1.hwReference = 1000 ∧
      (mux_fire sfC3).1.hwDt = 1500 :=
  have h := c3_mux_fire sfC3
  have hm := h.2.2.2.2.2.1
    { reference := 1000, dt := 1500, armed := true, client := some 0 } (by decide)
  ⟨h.1, hm.1, hm.2.1, hm.2.2.1⟩

/-- C1 counterexample: the soonest-first invariant as stated fails on a
reachable state. From the initial mux, register two nodes, arm one with
`(0, 100)` — the hardware follows, deadline 100 — then arm the other with
`(150, 100)`: the hardware deadline 100 is not within `[150, 250)`, so
`set_alarm` re-arms the hardware to deadline 250 even though the first
node is still armed with deadline 100; relative to now = 0 (the reference
the first alarm was armed at, inside its still-open window) an armed
node's deadline is strictly sooner than the hardware deadline, so the
soonest-first property is violated. -/
theorem c1_soonest_first_cex :
    MuxReach sCex ∧ 0 < sCex.enabled ∧ sCex.hwArmed = true ∧
      (∃ n ∈ sCex.alarms, n.armed = true ∧
        wrapping_sub (nodeDeadline n) 0 < wrapping_sub (hwDeadline sCex) 0) ∧
      ¬ SoonestFirst 0 sCex :=
  have hreach : MuxReach sCex :=
    MuxReach.set_alarm _ 1 150 100 (MuxReach.set_alarm _ 0 0 100
      (MuxReach.register _ 1 (MuxReach.register _ 0 MuxReach.init)))
  have hviol : ∃ n ∈ sCex.alarms, n.armed = true ∧
      wrapping_sub (nodeDeadline n) 0 < wrapping_sub (hwDeadline sCex) 0 := by decide
  ⟨hreach, by decide, by decide, hviol, fun hsf => by
    obtain ⟨_, hall⟩ := hsf (by decide)
    obtain ⟨n, hn, harm, hlt⟩ := hviol
    exact absurd (hall n hn harm) (by omega)⟩

/-- C1 (amended): the soonest-first property `SoonestFirst p` — whenever
the enabled count is positive the hardware is armed for a deadline no
later, relative to `p`, than every armed node's deadline — is preserved
by `set_alarm(reference, dt)` provided the pivot `p` (the current time)
lies within the new window `[reference, reference+dt)` and the currently
armed hardware deadline does not lie in the already-elapsed part
`[reference, p)` of that window (with an arbitrary — e.g. future —
reference the counterexample state is reachable), and the firing handler
unconditionally re-establishes the property relative to the `now` it
captures, namely the hardware deadline at entry. -/
theorem c1_soonest_first_amended (s : MuxState) (p i r dt : Nat)
    (hcnt : s.enabled = countArmed s.alarms) :
    (s.firing = false → SoonestFirst p s →
      within_range p r (wrapping_add r dt) = true →
      within_range (hwDeadline s) r p = false →
      SoonestFirst p (vm_set_alarm s i r dt)) ∧
    SoonestFirst (hwDeadline s) (mux_fire s).1 := by
  constructor
  · intro hf hpre hwin hnp
    cases hg : s.alarms[i]? with
    | none =>
      rw [show vm_set_alarm s i r dt = s from by simp [vm_set_alarm, hg]]
      exact hpre
    | some node =>
      rw [within_range_iff] at hwin
      rw [within_range_false_iff] at hnp
      intro hen2
      by_cases h0 : s.enabled = 0
      · have hzero : countArmed s.alarms = 0 := by omega
        have hnone := List.countP_eq_zero.mp hzero
        have hA : (vm_set_alarm s i r dt).alarms =
            s.alarms.set i { node with reference := r, dt := dt, armed := true } := by
          simp [vm_set_alarm, hg, h0]
        have hHa : (vm_set_alarm s i r dt).hwArmed = true := by
          simp [vm_set_alarm, hg, h0]
        have hDD : hwDeadline (vm_set_alarm s i r dt) = wrapping_add r dt := by
          unfold hwDeadline
          simp [vm_set_alarm, hg, h0]
        refine ⟨hHa, fun n hn harm => ?_⟩
        rw [hDD]
        rw [hA] at hn
        rcases mem_of_mem_set _ _ _ _ hn with hbn | hbn
        · subst hbn
          simp [nodeDeadline]
        · exact absurd harm (by simpa using hnone n hbn)
      · have hpos : 0 < s.enabled := Nat.pos_of_ne_zero h0
        obtain ⟨hhw, hall⟩ := hpre hpos
        cases hwb : within_range (hwDeadline s) r (wrapping_add r dt) with
        | true =>
          have hwtest := (within_range_iff _ _ _).mp hwb
          have hA : (vm_set_alarm s i r dt).alarms =
              s.alarms.set i { node with reference := r, dt := dt, armed := true } := by
            simp [vm_set_alarm, hg]
          have hHa : (vm_set_alarm s i r dt).hwArmed = s.hwArmed := by
            simp [vm_set_alarm, hg, h0, hf, hwb]
          have hDD : hwDeadline (vm_set_alarm s i r dt) = hwDeadline s := by
            unfold hwDeadline
            simp [vm_set_alarm, hg, h0, hf, hwb]
          have hkey : wrapping_sub (hwDeadline s) p ≤ wrapping_sub (wrapping_add r dt) p := by
            have h1 := wrapping_sub_transfer (hwDeadline s) p r hnp
            have h2 := wrapping_sub_transfer (wrapping_add r dt) p r (le_of_lt hwin)
            omega
          refine ⟨by rw [hHa]; exact hhw, fun n hn harm => ?_⟩
          rw [hDD]
          rw [hA] at hn
          rcases mem_of_mem_set _ _ _ _ hn with hbn | hbn
          · subst hbn
            simpa [nodeDeadline] using hkey
          · exact hall n hbn harm
        | false =>
          have hwtest := (within_range_false_iff _ _ _).mp hwb
          have hA : (vm_set_alarm s i r dt).alarms =
              s.alarms.set i { node with reference := r, dt := dt, armed := true } := by
            simp [vm_set_alarm, hg]
          have hHa : (vm_set_alarm s i r dt).hwArmed = true := by
            simp [vm_set_alarm, hg, h0, hf, hwb]
          have hDD : hwDeadline (vm_set_alarm s i r dt) = wrapping_add r dt := by
            unfold hwDeadline
            simp [vm_set_alarm, hg, h0, hf, hwb]
          have hkeyED : wrapping_sub (wrapping_add r dt) p ≤ wrapping_sub (hwDeadline s) p := by
            have h1 := wrapping_sub_transfer (hwDeadline s) p r hnp
            have h2 := wrapping_sub_transfer (wrapping_add r dt) p r (le_of_lt hwin)
            omega
          refine ⟨hHa, fun n hn harm => ?_⟩
          rw [hDD]
          rw [hA] at hn
          rcases mem_of_mem_set _ _ _ _ hn with hbn | hbn
          · subst hbn
            simp [nodeDeadline]
          · exact le_trans hkeyED (hall n hbn harm)
  · intro hen
    cases hmin : minNode (hwDeadline s)
        ((s.alarms.map
          (fun n => if expiredNode (hwDeadline s) n then { n with armed := false } else n)).filter
          (fun n => n.armed)) with
    | none =>
      exfalso
      have hfire := mux_fire_none_eq s hmin
      have hemp := (minNode_none_iff _ _).mp hmin
      have hcz : countArmed (s.alarms.map
          (fun n => if expiredNode (hwDeadline s) n then { n with armed := false } else n)) = 0 := by
        unfold countArmed
        rw [List.countP_eq_zero]
        intro a ha
        exact List.filter_eq_nil_iff.mp hemp a ha
      have hcf := countP_map_fire (fun n => n.armed) (expiredNode (hwDeadline s))
        (fun n => { n with armed := false }) s.alarms
        (fun x hx => expiredNode_armed _ x hx) (fun x _ => rfl)
      rw [hfire] at hen
      dsimp only at hen
      unfold countArmed at hcnt hcz
      dsimp only at hcf
      omega
    | some m0 =>
      have hfire := mux_fire_some_eq s m0 hmin
      obtain ⟨hmem, hall⟩ := minNode_spec _ _ _ hmin
      have hmem2 := List.mem_filter.mp hmem
      have hDD : hwDeadline (mux_fire s).1 = nodeDeadline m0 := by
        rw [hfire]
        unfold hwDeadline nodeDeadline
        rfl
      refine ⟨by rw [hfire], fun n hn harm => ?_⟩
      rw [hDD]
      rw [hfire] at hn
      dsimp only at hn
      exact hall n (List.mem_filter.mpr ⟨hn, by simpa using harm⟩)

/-- C1 witness: on the one-node state `sC6` (hardware armed at the node's
own deadline 30), a `set_alarm(10, 20)` issued at pivot 12 — which lies
inside the window `[10, 30)` while the hardware deadline 30 does not lie
in `[10, 12)` — preserves the soonest-first property, and the firing
handler re-establishes it. -/
theorem c1_soonest_first_amended_witness :
    SoonestFirst 12 (vm_set_alarm sC6 0 10 20) ∧
      SoonestFirst (hwDeadline sC6) (mux_fire sC6).1 :=
  have h := c1_soonest_first_amended sC6 12 0 10 20 (by decide)
  ⟨h.1 rfl (fun _ => ⟨rfl, by decide⟩) (by decide) (by decide), h.2⟩

/-- C9 counterexample: re-setting an already-`Enabled` record is neither
an arm-from-disabled nor a stop, yet the `reset_active_alarm`
recomputation runs on it. Reachably arm the single record with command 6
`(100, 50)` (so `next_alarm` is `Enabled(100, 50)`), then issue command 6
`(200, 60)` on the still-enabled record: `next_alarm` is rewritten to
`Enabled(200, 60)`, so the recomputation observably ran on a set command
that did not arm a previously-Disabled record. -/
theorem c9_reset_trigger_cex :
    DriverReach d9a ∧
      d9a.records[0]? = some { expiration := Expiration.Enabled 100 50, callback := none } ∧
      d9a.next_alarm = Expiration.Enabled 100 50 ∧
      d9b = (command 16 d9a 6 200 60 0 0 0).1 ∧
      d9b.next_alarm = Expiration.Enabled 200 60 ∧
      d9b.next_alarm ≠ d9a.next_alarm :=
  ⟨DriverReach.cmd 16 d9base 6 100 50 0 0 0 (DriverReach.grant driver_init DriverReach.init),
    by decide, by decide, rfl, by decide, by decide⟩

/-- C9 (amended): within `AlarmDriver::command` the `reset_active_alarm`
recomputation runs exactly when a set command (4, 5 or 6) succeeds —
regardless of whether the record was previously `Disabled` — or a stop of
an `Enabled` record succeeds, in which cases the result is literally
`reset_active_alarm` applied to the record-updated state; on the
read-only commands 0-2, a stop of an already-`Disabled` record, an
unsupported command, or a grant failure, the whole state — in particular
`next_alarm` and the owned virtual alarm — is left unchanged. -/
theorem c9_reset_trigger_amended (freq : Nat) (s : DriverState)
    (cmd data data2 i now rnow : Nat) :
    (s.records[i]? = none → (command freq s cmd data data2 i now rnow).1 = s) ∧
    ∀ td : AlarmData, s.records[i]? = some td →
      ((cmd = 0 ∨ cmd = 1 ∨ cmd = 2 ∨ 7 ≤ cmd →
        (command freq s cmd data data2 i now rnow).1 = s) ∧
      (cmd = 3 → td.expiration = Expiration.Disabled →
        (command freq s cmd data data2 i now rnow).1 = s) ∧
      (cmd = 3 → ∀ r0 d0, td.expiration = Expiration.Enabled r0 d0 →
        (command freq s cmd data data2 i now rnow).1 =
          reset_active_alarm
            { s with
                records := s.records.set i { td with expiration := Expiration.Disabled },
                num_armed := s.num_armed - 1 } rnow) ∧
      (cmd = 4 →
        (command freq s cmd data data2 i now rnow).1 =
          reset_active_alarm
            { s with
                records := s.records.set i
                  { td with expiration :=
                      (Expiration.Enabled ((now % W) % W) ((wrapping_sub data (now % W)) % W)) },
                num_armed := s.num_armed +
                  (match td.expiration with
                    | Expiration.Disabled => 1
                    | Expiration.Enabled _ _ => 0) } rnow) ∧
      (cmd = 5 →
        (command freq s cmd data data2 i now rnow).1 =
          reset_active_alarm
            { s with
                records := s.records.set i
                  { td with expiration := Expiration.Enabled ((now % W) % W) (data % W) },
                num_armed := s.num_armed +
                  (match td.expiration with
                    | Expiration.Disabled => 1
                    | Expiration.Enabled _ _ => 0) } rnow) ∧
      (cmd = 6 →
        (command freq s cmd data data2 i now rnow).1 =
          reset_active_alarm
            { s with
                records := s.records.set i
                  { td with expiration := Expiration.Enabled (data % W) (data2 % W) },
                num_armed := s.num_armed +
                  (match td.expiration with
                    | Expiration.Disabled => 1
                    | Expiration.Enabled _ _ => 0) } rnow)) := by
  refine ⟨fun hg => by simp [command, hg], fun td hg => ⟨fun hc => ?_, fun hc he => ?_,
    fun hc r0 d0 he => ?_, fun hc => ?_, fun hc => ?_, fun hc => ?_⟩⟩
  · rcases hc with hc | hc | hc | hc
    · subst hc; simp [command, hg]
    · subst hc; simp [command, hg]
    · subst hc; simp [command, hg]
    · rcases cmd with _ | _ | _ | _ | _ | _ | _ | c
      all_goals first
        | omega
        | simp [command, hg]
  · subst hc
    simp [command, hg, he]
  · subst hc
    simp only [command, hg, he, if_true]
  · subst hc
    simp only [command, hg, if_true]
  · subst hc
    simp only [command, hg, if_true]
  · subst hc
    simp only [command, hg, if_true]

/-- C9 witness: on the concrete enabled-record state `dEn`, command 6
`(200, 60)` produces exactly `reset_active_alarm` of the record-updated
state, and command 0 leaves the state unchanged. -/
theorem c9_reset_trigger_amended_witness :
    (command 16 dEn 6 200 60 0 7 7).1 =
      reset_active_alarm
        { dEn with
            records := dEn.records.set 0
              { expiration := Expiration.Enabled (200 % W) (60 % W), callback := some 4 },
            num_armed := dEn.num_armed } 7 ∧
      (command 16 dEn 0 200 60 0 7 7).1 = dEn :=
  have h := c9_reset_trigger_amended 16 dEn 6 200 60 0 7 7
  have h0 := c9_reset_trigger_amended 16 dEn 0 200 60 0 7 7
  ⟨((h.2 { expiration := Expiration.Enabled 100 50, callback := some 4 } rfl).2.2.2.2.2) rfl,
    ((h0.2 { expiration := Expiration.Enabled 100 50, callback := some 4 } rfl).1) (Or.inl rfl)⟩

end Tock
